import Mathlib

/-!
Verification model of the riddimbase-backend money subsystem.

The definitions below are a shallow embedding of the credit-ledger routes
and boost routes of `src/index.js` and of the revenue-split route of
`src/salesRoutes.js`.  JavaScript numbers that the routes use as integer
credit amounts and millisecond timestamps are modelled as `Int`; the
revenue-split route's two-decimal dollar arithmetic is modelled over `ℚ`.
The Supabase tables `recording_credits` and `recording_credit_history`
are modelled as a keyed row table (a function from user id to an optional
row) plus an append-only entry list, matching the columns the routes read
and write.
-/

namespace Riddimbase

/-! ### Credit ledger data model (src/index.js lines 66-291) -/

/-- The `RECORDING_SESSION_COST` from src/index.js line 68. -/
def RECORDING_SESSION_COST : Int := 200

/-- The `SIGNUP_BONUS_CREDITS` from src/index.js line 69. -/
def SIGNUP_BONUS_CREDITS : Int := 1000

/-- One plan of `RECORDING_PLANS` (src/index.js lines 76-91); the
`monthlyPriceUsd` display field is not used by any credit route and is
omitted. -/
structure Plan where
  id : String
  name : String
  monthlyCredits : Int
  priority : Bool
deriving DecidableEq

/-- The `RECORDING_PLANS[planId]` lookup (src/index.js lines 76-91, 256). -/
def RECORDING_PLANS (planId : String) : Option Plan :=
  if planId = "studio_lite" then some ⟨"studio_lite", "Studio Lite", 2000, false⟩
  else if planId = "studio_pro" then some ⟨"studio_pro", "Studio Pro", 6000, true⟩
  else none

/-- A `recording_credits` row: `balance`, `current_plan_id`,
`priority_processing` (the columns the routes read and write). -/
structure CreditsRow where
  balance : Int
  currentPlanId : Option String
  priorityProcessing : Bool
deriving DecidableEq

/-- A `recording_credit_history` row as inserted by the routes. -/
structure HistoryEntry where
  userId : String
  delta : Int
  balanceAfter : Int
  reason : String
  source : String
deriving DecidableEq

/-- The persistent state the credit routes touch: the `recording_credits`
table keyed by `user_id` (unique, read with `.maybeSingle()`) and the
append-only `recording_credit_history` table in insertion order. -/
structure LedgerState where
  credits : String → Option CreditsRow
  history : List HistoryEntry

/-- State with no rows and no history. -/
def emptyLedger : LedgerState := ⟨fun _ => none, []⟩

/-- Insert a `recording_credits` row for `u` (overwriting any previous). -/
def setRow (s : LedgerState) (u : String) (row : CreditsRow) : LedgerState :=
  { s with credits := fun v => if v = u then some row else s.credits v }

/-- The `update(...).eq('user_id', u)`: modify the row of `u` if it exists. -/
def updateRow (s : LedgerState) (u : String) (f : CreditsRow → CreditsRow) : LedgerState :=
  { s with credits := fun v => if v = u then (s.credits v).map f else s.credits v }

/-- Insert one `recording_credit_history` row. -/
def appendEntry (s : LedgerState) (e : HistoryEntry) : LedgerState :=
  { s with history := s.history ++ [e] }

/-- The `ensureCreditsRow` (src/index.js lines 93-119): read the row; if
present return it; otherwise insert a row seeded with the signup bonus
and record a `signup` history entry.  The sequential model cannot hit the
insert-conflict path; the race is modelled separately by `ensureStep`. -/
def ensureCreditsRow (s : LedgerState) (u : String) : LedgerState × CreditsRow :=
  match s.credits u with
  | some row => (s, row)
  | none =>
      let row : CreditsRow := ⟨SIGNUP_BONUS_CREDITS, none, false⟩
      (appendEntry (setRow s u row)
        ⟨u, SIGNUP_BONUS_CREDITS, row.balance, "Signup bonus", "signup"⟩, row)

/-- Error outcomes of the credit routes (HTTP 400/402 bodies). -/
inductive CreditErr
  | invalidAmount
  | insufficientFunds
  | unknownPlan
deriving DecidableEq

instance {ε α : Type} [DecidableEq ε] [DecidableEq α] : DecidableEq (Except ε α) := fun a b =>
  match a, b with
  | .ok x, .ok y => decidable_of_iff (x = y) (by simp)
  | .error x, .error y => decidable_of_iff (x = y) (by simp)
  | .ok _, .error _ => isFalse (by simp)
  | .error _, .ok _ => isFalse (by simp)

/-- The `POST /credits/use` (src/index.js lines 152-191): validate the
amount, ensure the row, reject when `current < amount` (402), otherwise
write `balance := current - amount` and insert a `session` entry whose
`balance_after` is the written balance. -/
def creditsUse (s : LedgerState) (u : String) (amount : Int) :
    LedgerState × Except CreditErr Int :=
  if amount ≤ 0 then (s, .error .invalidAmount)
  else
    let p := ensureCreditsRow s u
    if p.2.balance < amount then (p.1, .error .insufficientFunds)
    else
      let newBalance := p.2.balance - amount
      let s2 := updateRow p.1 u (fun r => { r with balance := newBalance })
      (appendEntry s2 ⟨u, -amount, newBalance, "Recording Lab session", "session"⟩,
        .ok newBalance)

/-- The `POST /credits/add` (src/index.js lines 195-245): validate the credit
amount, ensure the row, write `balance := current + creditsToAdd` and
insert a positive-delta entry. -/
def creditsAdd (s : LedgerState) (u : String) (creditsToAdd : Int)
    (reason source : String) : LedgerState × Except CreditErr Int :=
  if creditsToAdd ≤ 0 then (s, .error .invalidAmount)
  else
    let p := ensureCreditsRow s u
    let newBalance := p.2.balance + creditsToAdd
    let s2 := updateRow p.1 u (fun r => { r with balance := newBalance })
    (appendEntry s2 ⟨u, creditsToAdd, newBalance, reason, source⟩, .ok newBalance)

/-- The `POST /subscriptions/sync` (src/index.js lines 249-291): look up the
plan, ensure the row, overwrite `balance` with the plan's monthly
credits together with the plan fields, and insert a `subscription` entry
whose `delta` is the written balance itself (`delta: newBalance`). -/
def subscriptionsSync (s : LedgerState) (u planId : String) :
    LedgerState × Except CreditErr Int :=
  match RECORDING_PLANS planId with
  | none => (s, .error .unknownPlan)
  | some plan =>
      let p := ensureCreditsRow s u
      let newBalance := plan.monthlyCredits
      let s2 := updateRow p.1 u (fun r =>
        { r with balance := newBalance, currentPlanId := some plan.id,
                 priorityProcessing := plan.priority })
      (appendEntry s2 ⟨u, newBalance, newBalance,
        "Subscription renewal (" ++ plan.name ++ ")", "subscription"⟩, .ok newBalance)

/-! ### Observables of the ledger state -/

/-- Balance of `u` as the routes read it (`row?.balance ?? 0`). -/
def balanceOf (s : LedgerState) (u : String) : Int :=
  ((s.credits u).map CreditsRow.balance).getD 0

/-- History entries of `u` in creation order. -/
def entriesFor (s : LedgerState) (u : String) : List HistoryEntry :=
  s.history.filter (fun e => e.userId == u)

/-- Sum of the `delta` column over a list of entries. -/
def sumDeltas (l : List HistoryEntry) : Int := (l.map HistoryEntry.delta).sum

/-- The latest entry of `u`, when one exists, has `balance_after` equal
to the current balance of `u`. -/
def lastBalanceAgrees (s : LedgerState) (u : String) : Prop :=
  ((entriesFor s u).getLast?.map HistoryEntry.balanceAfter).getD (balanceOf s u)
    = balanceOf s u

/-- The spec §3 ledger invariant: for every account the deltas prefix-sum
to the balance and the latest entry's `balance_after` matches it. -/
def Inv (s : LedgerState) : Prop :=
  ∀ u, sumDeltas (entriesFor s u) = balanceOf s u ∧ lastBalanceAgrees s u

/-! ### Sequential route sequences -/

/-- One sequential call to a credit route. -/
inductive LOp
  | ensure (u : String)
  | use (u : String) (amount : Int)
  | add (u : String) (creditsToAdd : Int) (reason source : String)
  | sync (u planId : String)

/-- Whether the call is a `POST /subscriptions/sync`. -/
def LOp.isSync : LOp → Bool
  | .sync _ _ => true
  | _ => false

/-- State effect of one sequential route call. -/
def applyLOp (s : LedgerState) : LOp → LedgerState
  | .ensure u => (ensureCreditsRow s u).1
  | .use u a => (creditsUse s u a).1
  | .add u c r src => (creditsAdd s u c r src).1
  | .sync u p => (subscriptionsSync s u p).1

/-- Run a sequence of route calls one at a time. -/
def runOps (s : LedgerState) (ops : List LOp) : LedgerState := ops.foldl applyLOp s

/-- Weak ledger invariant: only the latest-entry agreement, for every
account.  Unlike `Inv` it survives `POST /subscriptions/sync`. -/
def WInv (s : LedgerState) : Prop := ∀ u, lastBalanceAgrees s u

/-! ### Credit/debit sequences against one account -/

/-- One `POST /credits/use` (debit) or `POST /credits/add` (credit) call
against a fixed account. -/
inductive AccOp
  | debit (amount : Int)
  | credit (amount : Int)

/-- State effect of one credit/debit call against account `u`. -/
def applyAccOp (u : String) (s : LedgerState) : AccOp → LedgerState
  | .debit a => (creditsUse s u a).1
  | .credit a => (creditsAdd s u a "Credit purchase" "purchase").1

/-- The delta an operation applies in state `s`: zero when the route
rejects it (invalid amount, insufficient funds), the signed amount when
it goes through. -/
def appliedDelta (s : LedgerState) (u : String) : AccOp → Int
  | .debit a => if a ≤ 0 then 0 else if balanceOf s u < a then 0 else -a
  | .credit a => if a ≤ 0 then 0 else a

/-- Sum of the deltas of all applied operations along a sequential run. -/
def appliedSum (u : String) : LedgerState → List AccOp → Int
  | _, [] => 0
  | s, op :: ops => appliedDelta s u op + appliedSum u (applyAccOp u s op) ops

/-- Run credit/debit calls against `u` one at a time. -/
def runAccOps (u : String) (s : LedgerState) (ops : List AccOp) : LedgerState :=
  ops.foldl (applyAccOp u) s

/-! ### Concurrent credit/debit requests against one account

`POST /credits/use` and `POST /credits/add` issue three separate
Supabase calls in order: read the balance, `update` it to the locally
computed value (unconditionally, no compare-and-set), then insert the
history row with that locally computed `balance_after`.  Each call is
atomic; two concurrent requests interleave these calls arbitrarily.  The
machine below is the projection onto a single account's balance and
history, one worker per in-flight request. -/

/-- Program counter of one in-flight credit/debit request: validation
plus read, then the unconditional write, then the history insert. -/
inductive CPhase
  | start
  | writeAt (newBal delta : Int)
  | appendAt (newBal delta : Int)
  | finished (applied : Bool)
deriving DecidableEq

/-- One in-flight request. -/
structure CWorker where
  isDebit : Bool
  amount : Int
  phase : CPhase
deriving DecidableEq

/-- Shared balance row and `(delta, balance_after)` history projection,
plus the in-flight requests. -/
structure CState where
  balance : Int
  history : List (Int × Int)
  workers : List CWorker
deriving DecidableEq

/-- Advance worker `i` by one atomic Supabase call, exactly as the route
bodies do: the read phase computes `newBalance` from the value read (and
rejects invalid amounts or insufficient funds terminally), the write
phase stores the precomputed `newBalance` without re-checking, the
append phase logs `(delta, newBalance)`. -/
def cstep (s : CState) (i : Nat) : CState :=
  match s.workers[i]? with
  | none => s
  | some w =>
    match w.phase with
    | .start =>
        if w.amount ≤ 0 then
          { s with workers := s.workers.set i { w with phase := .finished false } }
        else if w.isDebit then
          if s.balance < w.amount then
            { s with workers := s.workers.set i { w with phase := .finished false } }
          else
            { s with workers := s.workers.set i ({ w with phase := .writeAt (s.balance - w.amount) (-w.amount) }) }
        else
          { s with workers := s.workers.set i ({ w with phase := .writeAt (s.balance + w.amount) w.amount }) }
    | .writeAt nb d =>
        { s with balance := nb,
                 workers := s.workers.set i { w with phase := .appendAt nb d } }
    | .appendAt nb d =>
        { s with history := s.history ++ [(d, nb)],
                 workers := s.workers.set i { w with phase := .finished true } }
    | .finished _ => s

/-- Run a schedule: each element names the worker taking the next call. -/
def runSched (s : CState) (sched : List Nat) : CState := sched.foldl cstep s

/-- Sum of the deltas recorded by the applied operations. -/
def appliedDeltaSum (s : CState) : Int := (s.history.map Prod.fst).sum

/-- Initial state of the lost-update run: balance 0, two concurrent
credits of 100 each. -/
def cexInit : CState := ⟨0, [], [⟨false, 100, .start⟩, ⟨false, 100, .start⟩]⟩

/-- The interleaving read-read-write-append-write-append. -/
def cexFinal : CState := runSched cexInit [0, 1, 0, 0, 1, 1]

/-! ### Concurrent first-access (`ensureCreditsRow` race)

`ensureCreditsRow` issues a read and then, when the read found nothing,
an insert.  The insert fails with the store's duplicate-key error when
the row meanwhile exists, and the code rethrows that error
(`if (insertError) throw insertError`) instead of re-reading.  The
history insert follows a successful row insert. -/

/-- Program counter of one in-flight `ensureCreditsRow` call. -/
inductive EnsurePhase
  | start
  | toInsert
  | got (row : CreditsRow)
  | errored
deriving DecidableEq

/-- One atomic step of `ensureCreditsRow` for account `u`: the read, or
the insert (which fails on an existing row, making the call throw). -/
def ensureStep (u : String) (s : LedgerState) (ph : EnsurePhase) :
    LedgerState × EnsurePhase :=
  match ph with
  | .start =>
      match s.credits u with
      | some row => (s, .got row)
      | none => (s, .toInsert)
  | .toInsert =>
      match s.credits u with
      | some _ => (s, .errored)
      | none =>
          let row : CreditsRow := ⟨SIGNUP_BONUS_CREDITS, none, false⟩
          (appendEntry (setRow s u row)
            ⟨u, SIGNUP_BONUS_CREDITS, row.balance, "Signup bonus", "signup"⟩, .got row)
  | p => (s, p)

/-- Two concurrent `ensureCreditsRow` calls for the same account. -/
structure EnsureRace where
  state : LedgerState
  w1 : EnsurePhase
  w2 : EnsurePhase

/-- Advance one of the two racing calls. -/
def ensureRaceStep (u : String) (r : EnsureRace) (which : Bool) : EnsureRace :=
  if which then
    let p := ensureStep u r.state r.w2
    { r with state := p.1, w2 := p.2 }
  else
    let p := ensureStep u r.state r.w1
    { r with state := p.1, w1 := p.2 }

/-- Run the race under a schedule of worker choices. -/
def runEnsureRace (u : String) (r : EnsureRace) (sched : List Bool) : EnsureRace :=
  sched.foldl (ensureRaceStep u) r

/-- Number of `signup` history entries recorded for `u`. -/
def signupCount (s : LedgerState) (u : String) : Nat :=
  (s.history.filter (fun e => e.userId == u && e.source == "signup")).length

/-- Both racing calls start before the first read. -/
def raceInit : EnsureRace := ⟨emptyLedger, .start, .start⟩

/-! ### Revenue split (src/salesRoutes.js lines 23-71)

Dollar amounts are modelled over `ℚ`.  `Number(x.toFixed(2))` is modelled
as half-up rounding to two decimals; on the concrete inputs of the
spec's worked example every intermediate value is exactly representable
both in binary64 and at two decimals, so the model and the JavaScript
arithmetic agree there. -/

/-- The `Number(x.toFixed(2))` for non-negative `x`: half-up to cents. -/
def round2 (x : ℚ) : ℚ := (⌊x * 100 + 1 / 2⌋ : ℚ) / 100

/-- One `collaborators` row: `user_id` (nullable) and `split_percentage`. -/
structure Collaborator where
  userId : Option String
  splitPercentage : ℚ
deriving DecidableEq

/-- The `creatorRevenue = Math.max(0, totalAmount * (1 - platform_fee_rate))`
(src/salesRoutes.js line 31). -/
def creatorRevenueOf (amount feeRate : ℚ) : ℚ := max 0 (amount * (1 - feeRate))

/-- Per-collaborator payout
`Number(((creatorRevenue * split_percentage) / 100).toFixed(2))`
(src/salesRoutes.js lines 42 and 54). -/
def payoutOf (creatorRevenue : ℚ) (c : Collaborator) : ℚ :=
  round2 (creatorRevenue * c.splitPercentage / 100)

/-- The `amount_earned` values of the split rows `POST /sales/record-split`
inserts, in collaborator order. -/
def recordSplitPayouts (amount feeRate : ℚ) (collabs : List Collaborator) : List ℚ :=
  collabs.map (payoutOf (creatorRevenueOf amount feeRate))

/-! ### Boost scheduler (src/index.js lines 1075-1359)

A `boosted_beats` row.  Timestamps are milliseconds since epoch (the
routes compare ISO-8601 strings of the same format, which orders exactly
like the underlying instants). -/

structure Boost where
  id : Nat
  beatId : String
  producerId : String
  tier : Int
  startsAt : Int
  expiresAt : Int
  priorityScore : Int
deriving DecidableEq

/-- The `boosted_beats` table plus a fresh-id counter. -/
structure BoostState where
  boosts : List Boost
  nextId : Nat
deriving DecidableEq

/-- Empty `boosted_beats` table. -/
def emptyBoosts : BoostState := ⟨[], 0⟩

/-- Milliseconds in `days * 24 * 60 * 60 * 1000`. -/
def msPerDay : Int := 24 * 60 * 60 * 1000

/-- Error outcomes of the boost routes. -/
inductive BoostErr
  | validation
  | conflict
deriving DecidableEq

/-- Tier mapping of `POST /boosts/create` (src/index.js lines 1144-1147):
`tier = 1`, upgraded to 2 when `days >= 7 && days < 14`, to 3 when
`days >= 14`. -/
def tierForDays (days : Int) : Int :=
  if 7 ≤ days ∧ days < 14 then 2 else if 14 ≤ days then 3 else 1

/-- The `POST /boosts/create` (src/index.js lines 1131-1175): requires
truthy `beat_id`, `producer_id`, `days`; inserts a row with
`starts_at = now`, `expires_at = now + days*24*60*60*1000` and
`priority_score = tier * 100`.  Modelled from the spec: the
`boosted_beats` schema is not part of the repository; per spec §3
("unique on item identifier") and §4.4 ("upserted keyed by `itemId` — at
most one row per item") the table keys boost rows by item, so inserting
a second row for the same `beat_id` fails with the store's duplicate-key
error, which the route surfaces. -/
def boostsCreate (s : BoostState) (beatId producerId : String) (days : Int)
    (now : Int) : BoostState × Except BoostErr Boost :=
  if beatId = "" ∨ producerId = "" ∨ days = 0 then (s, .error .validation)
  else if s.boosts.any (fun b => b.beatId == beatId) then (s, .error .conflict)
  else
    let tier := tierForDays days
    let nb : Boost := ⟨s.nextId, beatId, producerId, tier, now,
      now + days * msPerDay, tier * 100⟩
    (⟨s.boosts ++ [nb], s.nextId + 1⟩, .ok nb)

/-- Duration table of `POST /api/boosts/activate`
(src/index.js lines 1279-1283): tier 1 ↦ 3 days, 2 ↦ 7, 3 ↦ 30. -/
def boostLengthDays (tier : Int) : Int :=
  if tier = 1 then 3 else if tier = 2 then 7 else 30

/-- The item's most-recent boost: the lookup
`.eq('beat_id', beatId).order('expires_at', { ascending: false }).limit(1)`
(src/index.js lines 1290-1296). -/
def latestBoostFor (s : BoostState) (beatId : String) : Option Boost :=
  (s.boosts.filter (fun b => b.beatId == beatId)).foldl
    (fun acc b =>
      match acc with
      | none => some b
      | some a => if a.expiresAt < b.expiresAt then some b else some a)
    none

/-- The `POST /api/boosts/activate` (src/index.js lines 1268-1333): validate
`beatId`, `producerId` and `tier ∈ {1,2,3}`; compute
`expiresAt = now + duration`, replaced by
`max(now, existing.expires_at) + duration` when a most-recent boost
exists; upsert the payload keyed on `beat_id`, overwriting `tier`,
`starts_at = now`, `expires_at` and `priority_score = tier * 100`. -/
def boostsActivate (s : BoostState) (beatId producerId : String) (tier : Int)
    (now : Int) : BoostState × Except BoostErr Boost :=
  if beatId = "" ∨ producerId = "" ∨ ¬(tier = 1 ∨ tier = 2 ∨ tier = 3) then
    (s, .error .validation)
  else
    let dur := boostLengthDays tier * msPerDay
    let expiresAt :=
      match latestBoostFor s beatId with
      | some b => max now b.expiresAt + dur
      | none => now + dur
    match s.boosts.find? (fun b => b.beatId == beatId) with
    | some old =>
        let updated : Boost := { old with producerId := producerId, tier := tier, startsAt := now, expiresAt := expiresAt, priorityScore := tier * 100 }
        (⟨s.boosts.map (fun b => if b.beatId == beatId then { b with producerId := producerId, tier := tier, startsAt := now, expiresAt := expiresAt, priorityScore := tier * 100 } else b), s.nextId⟩, .ok updated)
    | none =>
        let nb : Boost := ⟨s.nextId, beatId, producerId, tier, now, expiresAt, tier * 100⟩
        (⟨s.boosts ++ [nb], s.nextId + 1⟩, .ok nb)

/-- The `POST /api/boosts/:id/pause` and `POST /api/admin/boosts/:id/pause`
(src/index.js lines 1218-1241, 1336-1359): set `expires_at = now` on the
row with the given id. -/
def boostsPause (s : BoostState) (id : Nat) (now : Int) : BoostState :=
  ⟨s.boosts.map (fun b => if b.id == id then { b with expiresAt := now } else b), s.nextId⟩

/-- The `DELETE /api/admin/boosts/:id` (src/index.js lines 1244-1264):
remove the row with the given id. -/
def boostsDelete (s : BoostState) (id : Nat) : BoostState :=
  ⟨s.boosts.filter (fun b => b.id != id), s.nextId⟩

/-- The `GET /api/boosted` ordering: `priority_score` descending, ties
broken by `starts_at` descending. -/
def boostOrder (a b : Boost) : Prop :=
  b.priorityScore < a.priorityScore
    ∨ (a.priorityScore = b.priorityScore ∧ b.startsAt ≤ a.startsAt)

instance : DecidableRel boostOrder := fun a b => by
  unfold boostOrder; infer_instance

instance : IsTotal Boost boostOrder := by
  constructor
  intro a b
  unfold boostOrder
  rcases lt_trichotomy a.priorityScore b.priorityScore with h | h | h
  · exact Or.inr (Or.inl h)
  · rcases le_total a.startsAt b.startsAt with hs | hs
    · exact Or.inr (Or.inr ⟨h.symm, hs⟩)
    · exact Or.inl (Or.inr ⟨h, hs⟩)
  · exact Or.inl (Or.inl h)

instance : IsTrans Boost boostOrder := by
  constructor
  intro a b c hab hbc
  unfold boostOrder at hab hbc ⊢
  rcases hab with h1 | ⟨h1, h1s⟩ <;> rcases hbc with h2 | ⟨h2, h2s⟩
  · exact Or.inl (h2.trans h1)
  · exact Or.inl (by omega)
  · exact Or.inl (by omega)
  · exact Or.inr ⟨by omega, h2s.trans h1s⟩

/-- The `GET /api/boosted` (src/index.js lines 1077-1101): the rows with
`expires_at > now`, ordered by `priority_score` descending then
`starts_at` descending, truncated by `.limit(200)`. -/
def listBoosted (boosts : List Boost) (now : Int) : List Boost :=
  ((boosts.filter (fun b => now < b.expiresAt)).insertionSort boostOrder).take 200

/-! ### Sequences of boost operations -/

/-- One boost route call (without its timestamp). -/
inductive BOp
  | create (beatId producerId : String) (days : Int)
  | activate (beatId producerId : String) (tier : Int)
  | pauseBoost (id : Nat)
  | deleteBoost (id : Nat)

/-- Returns `true` when a create call's `days` parameter is positive (the route
itself only rejects falsy `days`). -/
def daysPositive : BOp → Bool
  | .create _ _ d => 1 ≤ d
  | _ => true

/-- State effect of one boost route call at time `now`. -/
def applyBOp (s : BoostState) : BOp × Int → BoostState
  | (.create b p d, now) => (boostsCreate s b p d now).1
  | (.activate b p t, now) => (boostsActivate s b p t now).1
  | (.pauseBoost i, now) => boostsPause s i now
  | (.deleteBoost i, _) => boostsDelete s i

/-- Run timestamped boost route calls one at a time. -/
def runBoostOps (s : BoostState) (ops : List (BOp × Int)) : BoostState :=
  ops.foldl applyBOp s

/-- The call timestamps never decrease, starting from `t`. -/
def timesOrdered : Int → List (BOp × Int) → Bool
  | _, [] => true
  | t, p :: ops => decide (t ≤ p.2) && timesOrdered p.2 ops

/-- Boost-table invariant at time `t`: item ids are pairwise distinct,
every record was started no later than `t`, and no record expires before
it starts. -/
def BInv (s : BoostState) (t : Int) : Prop :=
  s.boosts.Pairwise (fun a b => a.beatId ≠ b.beatId)
    ∧ ∀ b ∈ s.boosts, b.startsAt ≤ t ∧ b.startsAt ≤ b.expiresAt

/-- A ledger state with one account `alice` holding balance 500. -/
def seededState : LedgerState :=
  ⟨fun v => if v = "alice" then some ⟨500, none, false⟩ else none, []⟩

/-- The boost payload `POST /api/boosts/activate` writes over an existing
row `b0`: new producer, tier, `starts_at = now`, extended expiry and
recomputed priority score. -/
def activatePayload (b0 : Boost) (producerId : String) (tier now : Int) : Boost :=
  { b0 with producerId := producerId, tier := tier, startsAt := now, expiresAt := max now b0.expiresAt + boostLengthDays tier * msPerDay, priorityScore := tier * 100 }

/-- A boost table holding one tier-3 boost for item `b1`. -/
def boost3State : BoostState := ⟨[⟨0, "b1", "p1", 3, 0, 1000, 300⟩], 1⟩

/-- A two-row snapshot: one active boost at time 4, one expired. -/
def c8small : List Boost :=
  [⟨0, "b1", "p1", 1, 5, 10, 100⟩, ⟨1, "b2", "p2", 2, 0, 3, 200⟩]

/-- A snapshot of 201 boosts that are all active at time 0. -/
def c8many : List Boost := (List.range 201).map (fun i => ⟨i, "b", "p", 1, 0, 1, 100⟩)

/-- Route calls used to exercise the boost invariant. -/
def c9ops : List (BOp × Int) :=
  [(BOp.create "b1" "p1" 3, 0), (BOp.activate "b1" "p1" 2, 50), (BOp.pauseBoost 0, 100)]

/-- Route calls used to exercise the ledger invariant. -/
def c4ops : List LOp :=
  [LOp.ensure "u", LOp.use "u" 200, LOp.add "u" 500 "Credit purchase" "purchase"]

/-! ### Lemmas -/

/-! ### Basic lemmas about the state helpers -/

@[simp] lemma credits_setRow (s : LedgerState) (u : String) (row : CreditsRow) (v : String) :
    (setRow s u row).credits v = if v = u then some row else s.credits v := rfl

@[simp] lemma history_setRow (s : LedgerState) (u : String) (row : CreditsRow) :
    (setRow s u row).history = s.history := rfl

@[simp] lemma credits_updateRow (s : LedgerState) (u : String) (f : CreditsRow → CreditsRow)
    (v : String) :
    (updateRow s u f).credits v = if v = u then (s.credits v).map f else s.credits v := rfl

@[simp] lemma history_updateRow (s : LedgerState) (u : String) (f : CreditsRow → CreditsRow) :
    (updateRow s u f).history = s.history := rfl

@[simp] lemma credits_appendEntry (s : LedgerState) (e : HistoryEntry) :
    (appendEntry s e).credits = s.credits := rfl

@[simp] lemma history_appendEntry (s : LedgerState) (e : HistoryEntry) :
    (appendEntry s e).history = s.history ++ [e] := rfl

@[simp] lemma entriesFor_setRow (s : LedgerState) (u : String) (row : CreditsRow) (v : String) :
    entriesFor (setRow s u row) v = entriesFor s v := rfl

@[simp] lemma entriesFor_updateRow (s : LedgerState) (u : String) (f : CreditsRow → CreditsRow)
    (v : String) : entriesFor (updateRow s u f) v = entriesFor s v := rfl

lemma entriesFor_appendEntry (s : LedgerState) (e : HistoryEntry) (v : String) :
    entriesFor (appendEntry s e) v
      = entriesFor s v ++ if e.userId == v then [e] else [] := by
  by_cases h : e.userId = v
  · simp [entriesFor, h]
  · simp [entriesFor, h]

lemma entriesFor_appendEntry_self (s : LedgerState) (e : HistoryEntry)
    (h : e.userId = v) :
    entriesFor (appendEntry s e) v = entriesFor s v ++ [e] := by
  simp [entriesFor_appendEntry, h]

lemma entriesFor_appendEntry_ne (s : LedgerState) (e : HistoryEntry)
    (h : e.userId ≠ v) :
    entriesFor (appendEntry s e) v = entriesFor s v := by
  simp [entriesFor_appendEntry, h]

@[simp] lemma balanceOf_appendEntry (s : LedgerState) (e : HistoryEntry) (v : String) :
    balanceOf (appendEntry s e) v = balanceOf s v := rfl

lemma balanceOf_setRow_self (s : LedgerState) (u : String) (row : CreditsRow) :
    balanceOf (setRow s u row) u = row.balance := by
  simp [balanceOf]

lemma balanceOf_setRow_ne (s : LedgerState) (u : String) (row : CreditsRow)
    (h : v ≠ u) : balanceOf (setRow s u row) v = balanceOf s v := by
  simp [balanceOf, h]

lemma balanceOf_updateRow_some (s : LedgerState) (u : String) (f : CreditsRow → CreditsRow)
    (row : CreditsRow) (h : s.credits u = some row) :
    balanceOf (updateRow s u f) u = (f row).balance := by
  simp [balanceOf, h]

lemma balanceOf_updateRow_ne (s : LedgerState) (u : String) (f : CreditsRow → CreditsRow)
    (h : v ≠ u) : balanceOf (updateRow s u f) v = balanceOf s v := by
  simp [balanceOf, h]

lemma sumDeltas_append (l1 l2 : List HistoryEntry) :
    sumDeltas (l1 ++ l2) = sumDeltas l1 + sumDeltas l2 := by
  simp [sumDeltas]

lemma ensureCreditsRow_of_some (s : LedgerState) (u : String) (row : CreditsRow)
    (h : s.credits u = some row) : ensureCreditsRow s u = (s, row) := by
  simp [ensureCreditsRow, h]

lemma lastBalanceAgrees_append_self (s : LedgerState) (e : HistoryEntry) (v : String)
    (hu : e.userId = v) (hb : e.balanceAfter = balanceOf s v) :
    lastBalanceAgrees (appendEntry s e) v := by
  unfold lastBalanceAgrees
  rw [entriesFor_appendEntry_self s e hu, List.getLast?_concat]
  simpa using hb

/-- The empty state satisfies the ledger invariant. -/
lemma inv_emptyLedger : Inv emptyLedger := by
  intro u
  refine ⟨rfl, ?_⟩
  simp [lastBalanceAgrees, entriesFor, emptyLedger, balanceOf]

lemma ensure_credits_self (s : LedgerState) (u : String) :
    (ensureCreditsRow s u).1.credits u = some (ensureCreditsRow s u).2 := by
  cases hrow : s.credits u with
  | some row => simp [ensureCreditsRow, hrow]
  | none => simp [ensureCreditsRow, hrow]

lemma balanceOf_ensure_self (s : LedgerState) (u : String) :
    balanceOf (ensureCreditsRow s u).1 u = (ensureCreditsRow s u).2.balance := by
  simp [balanceOf, ensure_credits_self]

lemma balanceOf_ensure_ne (s : LedgerState) (u : String) (h : v ≠ u) :
    balanceOf (ensureCreditsRow s u).1 v = balanceOf s v := by
  cases hrow : s.credits u with
  | some row => simp [ensureCreditsRow, hrow]
  | none => simp [ensureCreditsRow, hrow, balanceOf, h]

/-- Write-then-log step: if a state change only rewrites the balance of
`e.userId` by exactly `e.delta`, leaves the history untouched, and the
logged entry carries the written balance, the ledger invariant survives
appending the entry. -/
lemma inv_write_append (s s2 : LedgerState) (e : HistoryEntry) (h : Inv s)
    (hHist : s2.history = s.history)
    (hBalNe : ∀ v, v ≠ e.userId → balanceOf s2 v = balanceOf s v)
    (hBal : balanceOf s2 e.userId = balanceOf s e.userId + e.delta)
    (hBA : e.balanceAfter = balanceOf s2 e.userId) :
    Inv (appendEntry s2 e) := by
  have hEnt : ∀ v, entriesFor s2 v = entriesFor s v := by
    intro v; simp [entriesFor, hHist]
  intro u
  by_cases hu : e.userId = u
  · subst hu
    refine ⟨?_, lastBalanceAgrees_append_self s2 e _ rfl hBA⟩
    rw [entriesFor_appendEntry_self _ _ rfl, sumDeltas_append, hEnt]
    have hs := (h e.userId).1
    simp only [balanceOf_appendEntry, hBal, sumDeltas, List.map_cons, List.map_nil,
      List.sum_cons, List.sum_nil, add_zero] at hs ⊢
    omega
  · have hb : balanceOf (appendEntry s2 e) u = balanceOf s u := by
      rw [balanceOf_appendEntry]; exact hBalNe u (fun hh => hu hh.symm)
    refine ⟨?_, ?_⟩
    · rw [entriesFor_appendEntry_ne _ _ hu, hEnt, hb]
      exact (h u).1
    · unfold lastBalanceAgrees
      rw [entriesFor_appendEntry_ne _ _ hu, hEnt, hb]
      exact (h u).2

/-- The `ensureCreditsRow` preserves the ledger invariant. -/
lemma inv_ensure (s : LedgerState) (w : String) (h : Inv s) :
    Inv (ensureCreditsRow s w).1 := by
  cases hrow : s.credits w with
  | some row => rw [ensureCreditsRow_of_some s w row hrow]; exact h
  | none =>
      simp only [ensureCreditsRow, hrow]
      apply inv_write_append s (setRow s w ⟨SIGNUP_BONUS_CREDITS, none, false⟩) _ h rfl
      · intro v hv
        exact balanceOf_setRow_ne s w _ hv
      · rw [balanceOf_setRow_self]
        simp [balanceOf, hrow]
      · rw [balanceOf_setRow_self]

/-- The `POST /credits/use` preserves the ledger invariant. -/
lemma inv_use (s : LedgerState) (u : String) (a : Int) (h : Inv s) :
    Inv (creditsUse s u a).1 := by
  by_cases ha : a ≤ 0
  · simpa [creditsUse, ha] using h
  · have h1 : Inv (ensureCreditsRow s u).1 := inv_ensure s u h
    by_cases hlt : (ensureCreditsRow s u).2.balance < a
    · simpa [creditsUse, ha, hlt] using h1
    · simp only [creditsUse, if_neg ha, if_neg hlt]
      apply inv_write_append _ _ _ h1
      · rfl
      · intro v hv
        exact balanceOf_updateRow_ne _ u _ hv
      · rw [balanceOf_updateRow_some _ u _ _ (ensure_credits_self s u),
          balanceOf_ensure_self]
        ring
      · rw [balanceOf_updateRow_some _ u _ _ (ensure_credits_self s u)]

/-- The `POST /credits/add` preserves the ledger invariant. -/
lemma inv_add (s : LedgerState) (u : String) (c : Int) (reason source : String)
    (h : Inv s) : Inv (creditsAdd s u c reason source).1 := by
  by_cases hc : c ≤ 0
  · simpa [creditsAdd, hc] using h
  · have h1 : Inv (ensureCreditsRow s u).1 := inv_ensure s u h
    simp only [creditsAdd, if_neg hc]
    apply inv_write_append _ _ _ h1
    · rfl
    · intro v hv
      exact balanceOf_updateRow_ne _ u _ hv
    · rw [balanceOf_updateRow_some _ u _ _ (ensure_credits_self s u),
        balanceOf_ensure_self]
    · rw [balanceOf_updateRow_some _ u _ _ (ensure_credits_self s u)]


lemma winv_of_inv (s : LedgerState) (h : Inv s) : WInv s := fun u => (h u).2

/-- Write-then-log step for the weak invariant: no condition on the delta. -/
lemma winv_write_append (s s2 : LedgerState) (e : HistoryEntry) (h : WInv s)
    (hHist : s2.history = s.history)
    (hBalNe : ∀ v, v ≠ e.userId → balanceOf s2 v = balanceOf s v)
    (hBA : e.balanceAfter = balanceOf s2 e.userId) :
    WInv (appendEntry s2 e) := by
  have hEnt : ∀ v, entriesFor s2 v = entriesFor s v := by
    intro v; simp [entriesFor, hHist]
  intro u
  by_cases hu : e.userId = u
  · subst hu
    exact lastBalanceAgrees_append_self s2 e _ rfl hBA
  · have hb : balanceOf (appendEntry s2 e) u = balanceOf s u := by
      rw [balanceOf_appendEntry]; exact hBalNe u (fun hh => hu hh.symm)
    unfold lastBalanceAgrees
    rw [entriesFor_appendEntry_ne _ _ hu, hEnt, hb]
    exact h u

lemma winv_ensure (s : LedgerState) (w : String) (h : WInv s) :
    WInv (ensureCreditsRow s w).1 := by
  cases hrow : s.credits w with
  | some row => rw [ensureCreditsRow_of_some s w row hrow]; exact h
  | none =>
      simp only [ensureCreditsRow, hrow]
      apply winv_write_append _ _ _ h
      · rfl
      · intro v hv
        exact balanceOf_setRow_ne s w _ hv
      · rw [balanceOf_setRow_self]

lemma winv_use (s : LedgerState) (u : String) (a : Int) (h : WInv s) :
    WInv (creditsUse s u a).1 := by
  by_cases ha : a ≤ 0
  · simpa [creditsUse, ha] using h
  · have h1 : WInv (ensureCreditsRow s u).1 := winv_ensure s u h
    by_cases hlt : (ensureCreditsRow s u).2.balance < a
    · simpa [creditsUse, ha, hlt] using h1
    · simp only [creditsUse, if_neg ha, if_neg hlt]
      apply winv_write_append _ _ _ h1
      · rfl
      · intro v hv
        exact balanceOf_updateRow_ne _ u _ hv
      · rw [balanceOf_updateRow_some _ u _ _ (ensure_credits_self s u)]

lemma winv_add (s : LedgerState) (u : String) (c : Int) (reason source : String)
    (h : WInv s) : WInv (creditsAdd s u c reason source).1 := by
  by_cases hc : c ≤ 0
  · simpa [creditsAdd, hc] using h
  · have h1 : WInv (ensureCreditsRow s u).1 := winv_ensure s u h
    simp only [creditsAdd, if_neg hc]
    apply winv_write_append _ _ _ h1
    · rfl
    · intro v hv
      exact balanceOf_updateRow_ne _ u _ hv
    · rw [balanceOf_updateRow_some _ u _ _ (ensure_credits_self s u)]

lemma winv_sync (s : LedgerState) (u planId : String) (h : WInv s) :
    WInv (subscriptionsSync s u planId).1 := by
  cases hplan : RECORDING_PLANS planId with
  | none => simpa [subscriptionsSync, hplan] using h
  | some plan =>
      have h1 : WInv (ensureCreditsRow s u).1 := winv_ensure s u h
      simp only [subscriptionsSync, hplan]
      apply winv_write_append _ _ _ h1
      · rfl
      · intro v hv
        exact balanceOf_updateRow_ne _ u _ hv
      · rw [balanceOf_updateRow_some _ u _ _ (ensure_credits_self s u)]

lemma winv_applyLOp (s : LedgerState) (op : LOp) (h : WInv s) : WInv (applyLOp s op) := by
  cases op with
  | ensure u => exact winv_ensure s u h
  | use u a => exact winv_use s u a h
  | add u c r src => exact winv_add s u c r src h
  | sync u p => exact winv_sync s u p h

lemma inv_applyLOp (s : LedgerState) (op : LOp) (h : Inv s) (hns : op.isSync = false) :
    Inv (applyLOp s op) := by
  cases op with
  | ensure u => exact inv_ensure s u h
  | use u a => exact inv_use s u a h
  | add u c r src => exact inv_add s u c r src h
  | sync u p => exact absurd hns (by simp [LOp.isSync])

lemma winv_runOps (s : LedgerState) (ops : List LOp) (h : WInv s) :
    WInv (runOps s ops) := by
  induction ops generalizing s with
  | nil => exact h
  | cons op ops ih => exact ih _ (winv_applyLOp s op h)

lemma inv_runOps (s : LedgerState) (ops : List LOp) (h : Inv s)
    (hns : ∀ op ∈ ops, op.isSync = false) : Inv (runOps s ops) := by
  induction ops generalizing s with
  | nil => exact h
  | cons op ops ih =>
      exact ih _ (inv_applyLOp s op h (hns op (by simp))) (fun o ho => hns o (by simp [ho]))


lemma credits_applyAccOp_isSome (s : LedgerState) (u : String) (op : AccOp)
    (h : (s.credits u).isSome) : ((applyAccOp u s op).credits u).isSome := by
  obtain ⟨row, hrow⟩ := Option.isSome_iff_exists.mp h
  cases op with
  | debit a =>
      by_cases ha : a ≤ 0
      · simpa [applyAccOp, creditsUse, ha] using h
      · rw [applyAccOp, creditsUse, if_neg ha, ensureCreditsRow_of_some s u row hrow]
        by_cases hlt : row.balance < a
        · simpa [hlt] using h
        · simp [hlt, hrow]
  | credit a =>
      by_cases ha : a ≤ 0
      · simpa [applyAccOp, creditsAdd, ha] using h
      · rw [applyAccOp, creditsAdd, if_neg ha, ensureCreditsRow_of_some s u row hrow]
        simp [hrow]

lemma balanceOf_applyAccOp (s : LedgerState) (u : String) (op : AccOp)
    (h : (s.credits u).isSome) :
    balanceOf (applyAccOp u s op) u = balanceOf s u + appliedDelta s u op := by
  obtain ⟨row, hrow⟩ := Option.isSome_iff_exists.mp h
  have hb : balanceOf s u = row.balance := by simp [balanceOf, hrow]
  cases op with
  | debit a =>
      by_cases ha : a ≤ 0
      · simp [applyAccOp, creditsUse, ha, appliedDelta]
      · rw [applyAccOp, creditsUse, if_neg ha, ensureCreditsRow_of_some s u row hrow]
        by_cases hlt : row.balance < a
        · simp [hlt, appliedDelta, ha, hb]
        · simp only [if_neg hlt]
          rw [balanceOf_appendEntry, balanceOf_updateRow_some _ u _ _ hrow]
          simp only [appliedDelta, if_neg ha, hb, if_neg hlt]
          ring
  | credit a =>
      by_cases ha : a ≤ 0
      · simp [applyAccOp, creditsAdd, ha, appliedDelta]
      · rw [applyAccOp, creditsAdd, if_neg ha, ensureCreditsRow_of_some s u row hrow]
        rw [balanceOf_appendEntry, balanceOf_updateRow_some _ u _ _ hrow]
        simp [appliedDelta, ha, hb]

lemma balanceOf_runAccOps (s : LedgerState) (u : String) (ops : List AccOp)
    (h : (s.credits u).isSome) :
    balanceOf (runAccOps u s ops) u = balanceOf s u + appliedSum u s ops := by
  induction ops generalizing s with
  | nil => simp [runAccOps, appliedSum]
  | cons op ops ih =>
      have h2 := credits_applyAccOp_isSome s u op h
      have hstep := balanceOf_applyAccOp s u op h
      have := ih (applyAccOp u s op) h2
      simp only [runAccOps, List.foldl_cons] at this ⊢
      rw [this, hstep, appliedSum]
      ring

lemma winv_applyAccOp (s : LedgerState) (u : String) (op : AccOp) (h : WInv s) :
    WInv (applyAccOp u s op) := by
  cases op with
  | debit a => exact winv_use s u a h
  | credit a => exact winv_add s u a _ _ h

lemma winv_runAccOps (s : LedgerState) (u : String) (ops : List AccOp) (h : WInv s) :
    WInv (runAccOps u s ops) := by
  induction ops generalizing s with
  | nil => exact h
  | cons op ops ih => exact ih _ (winv_applyAccOp s u op h)


lemma signupCount_step (u : String) (s : LedgerState) (ph : EnsurePhase)
    (h : signupCount s u = if (s.credits u).isSome then 1 else 0) :
    signupCount (ensureStep u s ph).1 u
      = if ((ensureStep u s ph).1.credits u).isSome then 1 else 0 := by
  cases ph with
  | start => cases hrow : s.credits u <;> simpa [ensureStep, hrow] using h
  | toInsert =>
      cases hrow : s.credits u with
      | some row => simpa [ensureStep, hrow] using h
      | none =>
          rw [hrow] at h
          simp only [Option.isSome_none, Bool.false_eq_true, if_false] at h
          simp only [signupCount] at h
          simp [ensureStep, hrow, signupCount, List.filter_append, h]
  | got row => simpa [ensureStep] using h
  | errored => simpa [ensureStep] using h

lemma signupCount_race (u : String) (r : EnsureRace) (sched : List Bool)
    (h : signupCount r.state u = if (r.state.credits u).isSome then 1 else 0) :
    signupCount (runEnsureRace u r sched).state u
      = if ((runEnsureRace u r sched).state.credits u).isSome then 1 else 0 := by
  induction sched generalizing r with
  | nil => exact h
  | cons b sched ih =>
      apply ih
      cases b with
      | true => exact signupCount_step u r.state r.w2 h
      | false => exact signupCount_step u r.state r.w1 h


lemma binv_mono (s : BoostState) (t t2 : Int) (h : BInv s t) (hle : t ≤ t2) :
    BInv s t2 := by
  refine ⟨h.1, fun b hb => ?_⟩
  obtain ⟨h1, h2⟩ := h.2 b hb
  exact ⟨h1.trans hle, h2⟩

lemma binv_create (s : BoostState) (beatId producerId : String) (days now : Int)
    (h : BInv s now) (hd : 1 ≤ days) :
    BInv (boostsCreate s beatId producerId days now).1 now := by
  unfold boostsCreate
  by_cases hv : beatId = "" ∨ producerId = "" ∨ days = 0
  · simpa [hv] using h
  · simp only [if_neg hv]
    by_cases hex : s.boosts.any (fun b => b.beatId == beatId)
    · simpa [hex] using h
    · simp only [hex, Bool.false_eq_true, if_false]
      constructor
      · rw [List.pairwise_append]
        refine ⟨h.1, by simp, fun a ha b hb => ?_⟩
        rw [List.mem_singleton] at hb
        subst hb
        intro hcontra
        have : s.boosts.any (fun b => b.beatId == beatId) = true := by
          rw [List.any_eq_true]
          exact ⟨a, ha, by simp [hcontra]⟩
        exact hex this
      · intro b hb
        rw [List.mem_append, List.mem_singleton] at hb
        rcases hb with hb | hb
        · exact (h.2 b hb)
        · subst hb
          refine ⟨le_refl _, ?_⟩
          simp only []
          have : 0 < days * msPerDay := by
            have : (0 : Int) < msPerDay := by decide
            positivity
          omega

/-- The computed new expiry of `POST /api/boosts/activate` is never in
the past. -/
lemma activate_expiry_ge (s : BoostState) (beatId : String) (tier now : Int)
    (hdur : 0 < boostLengthDays tier * msPerDay) :
    now ≤ (match latestBoostFor s beatId with
      | some b => max now b.expiresAt + boostLengthDays tier * msPerDay
      | none => now + boostLengthDays tier * msPerDay) := by
  cases hlat : latestBoostFor s beatId with
  | some lb =>
      simp only [hlat]
      rcases le_total now lb.expiresAt with hcmp | hcmp
      · rw [max_eq_right hcmp]
        show now ≤ lb.expiresAt + boostLengthDays tier * msPerDay
        linarith
      · rw [max_eq_left hcmp]
        show now ≤ now + boostLengthDays tier * msPerDay
        linarith
  | none =>
      simp only [hlat]
      show now ≤ now + boostLengthDays tier * msPerDay
      linarith

lemma binv_activate (s : BoostState) (beatId producerId : String) (tier now : Int)
    (h : BInv s now) :
    BInv (boostsActivate s beatId producerId tier now).1 now := by
  unfold boostsActivate
  by_cases hv : beatId = "" ∨ producerId = "" ∨ ¬(tier = 1 ∨ tier = 2 ∨ tier = 3)
  · rw [if_pos hv]; exact h
  · rw [if_neg hv]
    have htier : tier = 1 ∨ tier = 2 ∨ tier = 3 := by tauto
    have hdur : 0 < boostLengthDays tier * msPerDay := by
      rcases htier with h1 | h1 | h1 <;> subst h1 <;> decide
    have hexp := activate_expiry_ge s beatId tier now hdur
    cases hfind : s.boosts.find? (fun b => b.beatId == beatId) with
    | some old =>
        simp only [hfind]
        constructor
        · refine List.Pairwise.map _ ?_ h.1
          intro a b hne
          by_cases hab : (a.beatId == beatId) = true <;>
            by_cases hbb : (b.beatId == beatId) = true <;> simpa [hab, hbb] using hne
        · intro b hb
          rw [List.mem_map] at hb
          obtain ⟨a, ha, hab⟩ := hb
          by_cases hmatch : (a.beatId == beatId) = true
          · rw [if_pos hmatch] at hab
            subst hab
            exact ⟨le_refl _, hexp⟩
          · rw [if_neg hmatch] at hab
            subst hab
            exact h.2 a ha
    | none =>
        simp only [hfind]
        constructor
        · rw [List.pairwise_append]
          refine ⟨h.1, by simp, fun a ha b hb => ?_⟩
          rw [List.mem_singleton] at hb
          subst hb
          intro hcontra
          have := List.find?_eq_none.mp hfind a ha
          simp [hcontra] at this
        · intro b hb
          rw [List.mem_append, List.mem_singleton] at hb
          rcases hb with hb | hb
          · exact h.2 b hb
          · subst hb
            exact ⟨le_refl _, hexp⟩

lemma binv_pause (s : BoostState) (id : Nat) (now : Int) (h : BInv s now) :
    BInv (boostsPause s id now) now := by
  unfold boostsPause
  constructor
  · refine List.Pairwise.map _ ?_ h.1
    intro a b hne
    by_cases hai : (a.id == id) = true <;> by_cases hbi : (b.id == id) = true <;>
      simpa [hai, hbi] using hne
  · intro b hb
    rw [List.mem_map] at hb
    obtain ⟨a, ha, hab⟩ := hb
    by_cases hai : (a.id == id) = true
    · rw [if_pos hai] at hab
      subst hab
      have := h.2 a ha
      exact ⟨this.1, this.1⟩
    · rw [if_neg hai] at hab
      subst hab
      exact h.2 a ha

lemma binv_delete (s : BoostState) (id : Nat) (t : Int) (h : BInv s t) :
    BInv (boostsDelete s id) t := by
  unfold boostsDelete
  constructor
  · exact h.1.sublist (List.filter_sublist _)
  · intro b hb
    exact h.2 b (List.mem_of_mem_filter hb)

lemma binv_applyBOp (s : BoostState) (op : BOp) (t now : Int) (h : BInv s t)
    (hle : t ≤ now) (hd : daysPositive op = true) :
    BInv (applyBOp s (op, now)) now := by
  have h2 : BInv s now := binv_mono s t now h hle
  cases op with
  | create b p d =>
      have : (1 : Int) ≤ d := by simpa [daysPositive] using hd
      exact binv_create s b p d now h2 this
  | activate b p tr => exact binv_activate s b p tr now h2
  | pauseBoost i => exact binv_pause s i now h2
  | deleteBoost i => exact binv_delete s i now h2

lemma binv_runBoostOps (s : BoostState) (ops : List (BOp × Int)) (t : Int)
    (h : BInv s t) (hord : timesOrdered t ops = true)
    (hd : ∀ p ∈ ops, daysPositive p.1 = true) :
    ∃ t2, BInv (runBoostOps s ops) t2 := by
  induction ops generalizing s t with
  | nil => exact ⟨t, h⟩
  | cons p ops ih =>
      rw [timesOrdered, Bool.and_eq_true, decide_eq_true_iff] at hord
      have hstep := binv_applyBOp s p.1 t p.2 h hord.1 (hd p (by simp))
      exact ih _ p.2 (by simpa using hstep) hord.2 (fun q hq => hd q (by simp [hq]))


/-- In a table with pairwise-distinct item ids, at most one row matches
any item id and any activity filter. -/
lemma filter_beatId_le_one (l : List Boost) (beatId : String) (now : Int)
    (h : l.Pairwise (fun a b => a.beatId ≠ b.beatId)) :
    (l.filter (fun b => b.beatId == beatId && decide (now < b.expiresAt))).length ≤ 1 := by
  induction l with
  | nil => simp
  | cons a l ih =>
      rw [List.pairwise_cons] at h
      rw [List.filter_cons]
      by_cases ha : (a.beatId == beatId && decide (now < a.expiresAt)) = true
      · rw [if_pos ha]
        have habeat : a.beatId = beatId := by
          rw [Bool.and_eq_true, beq_iff_eq] at ha
          exact ha.1
        have hnil :
            List.filter (fun b => b.beatId == beatId && decide (now < b.expiresAt)) l
              = [] := by
          rw [List.filter_eq_nil_iff]
          intro b hb
          have hne := h.1 b hb
          simp only [Bool.and_eq_true, beq_iff_eq, decide_eq_true_eq, not_and]
          intro hbb
          exact absurd (habeat.trans hbb.symm) hne
        rw [hnil]
        simp
      · rw [if_neg ha]
        exact ih h.2


/-! ### Claims -/

/-- C1, counterexample.  Two concurrent credits of 100 against a balance
of 0, interleaved read-read-write-append-write-append, both complete and
both record their delta, yet the final balance is 100, not the initial
balance plus the 200 of applied deltas: the plain read-modify-write of
`POST /credits/use` / `POST /credits/add` loses updates. -/
theorem concurrent_credits_lose_update :
    cexFinal.workers = [⟨false, 100, .finished true⟩, ⟨false, 100, .finished true⟩]
      ∧ appliedDeltaSum cexFinal = 200
      ∧ cexFinal.balance = 100
      ∧ cexFinal.balance ≠ cexInit.balance + appliedDeltaSum cexFinal := by
  decide

/-- C1, amended: when the credit/debit calls against one existing
account run sequentially (no interleaving), the final balance equals the
initial balance plus the sum of the deltas of all applied operations,
and the latest ledger entry's `balance_after` equals the final
balance. -/
theorem sequential_credit_debit_balance (s : LedgerState) (u : String) (ops : List AccOp)
    (hrow : (s.credits u).isSome) (hinv : Inv s) :
    balanceOf (runAccOps u s ops) u = balanceOf s u + appliedSum u s ops
      ∧ lastBalanceAgrees (runAccOps u s ops) u :=
  ⟨balanceOf_runAccOps s u ops hrow, winv_runAccOps s u ops (winv_of_inv s hinv) u⟩

/-- C1, witness for the amended theorem at a concrete account and
operation list. -/
theorem sequential_credit_debit_balance_witness :
    (((ensureCreditsRow emptyLedger "alice").1.credits "alice").isSome
        ∧ Inv (ensureCreditsRow emptyLedger "alice").1)
      ∧ (balanceOf (runAccOps "alice" (ensureCreditsRow emptyLedger "alice").1
            [AccOp.credit 500, AccOp.debit 200, AccOp.debit 5000]) "alice"
          = balanceOf (ensureCreditsRow emptyLedger "alice").1 "alice"
            + appliedSum "alice" (ensureCreditsRow emptyLedger "alice").1
                [AccOp.credit 500, AccOp.debit 200, AccOp.debit 5000]
        ∧ lastBalanceAgrees (runAccOps "alice" (ensureCreditsRow emptyLedger "alice").1
            [AccOp.credit 500, AccOp.debit 200, AccOp.debit 5000]) "alice") :=
  ⟨⟨by decide, inv_ensure emptyLedger "alice" inv_emptyLedger⟩,
   sequential_credit_debit_balance (ensureCreditsRow emptyLedger "alice").1 "alice"
     [AccOp.credit 500, AccOp.debit 200, AccOp.debit 5000] (by decide)
     (inv_ensure emptyLedger "alice" inv_emptyLedger)⟩

/-- C2, counterexample.  Debiting 2000 from an account that has no
credits row yet returns `InsufficientFunds` (its post-signup balance
1000 is short), but the state is mutated: the lazy `ensureCreditsRow`
call creates the row and appends a signup-bonus ledger entry before the
insufficient-funds check. -/
theorem debit_insufficient_creates_row :
    balanceOf emptyLedger "alice" = 0
      ∧ (creditsUse emptyLedger "alice" 2000).2 = Except.error CreditErr.insufficientFunds
      ∧ (creditsUse emptyLedger "alice" 2000).1.history
          = [⟨"alice", 1000, 1000, "Signup bonus", "signup"⟩]
      ∧ ((creditsUse emptyLedger "alice" 2000).1.credits "alice").isSome := by
  decide

/-- C2, amended: for every account that already has a credits row whose
balance is strictly below the (positive) requested amount, the debit
returns `InsufficientFunds` and leaves the persistent state completely
unchanged. -/
theorem debit_insufficient_no_mutation (s : LedgerState) (u : String) (row : CreditsRow)
    (amount : Int) (hrow : s.credits u = some row) (hpos : 0 < amount)
    (hlt : row.balance < amount) :
    creditsUse s u amount = (s, Except.error CreditErr.insufficientFunds) := by
  have h1 : ¬amount ≤ 0 := by omega
  simp only [creditsUse, if_neg h1, ensureCreditsRow_of_some s u row hrow, if_pos hlt]

/-- C2, witness for the amended theorem. -/
theorem debit_insufficient_no_mutation_witness :
    (seededState.credits "alice" = some ⟨500, none, false⟩ ∧ (0 : Int) < 600
        ∧ (500 : Int) < 600)
      ∧ creditsUse seededState "alice" 600
          = (seededState, Except.error CreditErr.insufficientFunds) :=
  ⟨⟨by decide, by decide, by decide⟩,
   debit_insufficient_no_mutation seededState "alice" ⟨500, none, false⟩ 600
     (by decide) (by decide) (by decide)⟩

/-- C3, counterexample.  Syncing plan `studio_lite` (2000 monthly
credits) on an account with prior balance 500 records a ledger entry
whose `delta` is the absolute new balance 2000, not the net change
1500 = 2000 - 500 that the claim asserts. -/
theorem sync_delta_absolute_not_net :
    balanceOf seededState "alice" = 500
      ∧ ((subscriptionsSync seededState "alice" "studio_lite").1.history.getLast?.map
          HistoryEntry.delta) = some 2000
      ∧ balanceOf (subscriptionsSync seededState "alice" "studio_lite").1 "alice" = 2000
      ∧ ((subscriptionsSync seededState "alice" "studio_lite").1.history.getLast?.map
          HistoryEntry.delta) ≠ some (2000 - 500) := by
  decide

/-- C3, amended: the sync sets the balance to the plan's fixed monthly
credit amount and appends an entry whose `delta` is that absolute new
balance (the new balance minus zero), regardless of the prior
balance. -/
theorem sync_sets_balance_records_absolute_delta (s : LedgerState) (u planId : String)
    (plan : Plan) (hplan : RECORDING_PLANS planId = some plan) :
    balanceOf (subscriptionsSync s u planId).1 u = plan.monthlyCredits
      ∧ (subscriptionsSync s u planId).1.history.getLast?
          = some ⟨u, plan.monthlyCredits, plan.monthlyCredits,
              "Subscription renewal (" ++ plan.name ++ ")", "subscription"⟩ := by
  constructor
  · simp only [subscriptionsSync, hplan, balanceOf_appendEntry]
    rw [balanceOf_updateRow_some _ u _ _ (ensure_credits_self s u)]
  · simp only [subscriptionsSync, hplan, history_appendEntry, history_updateRow]
    rw [List.getLast?_concat]

/-- C3, witness for the amended theorem. -/
theorem sync_sets_balance_records_absolute_delta_witness :
    RECORDING_PLANS "studio_lite" = some ⟨"studio_lite", "Studio Lite", 2000, false⟩
      ∧ (balanceOf (subscriptionsSync emptyLedger "bob" "studio_lite").1 "bob" = 2000
        ∧ (subscriptionsSync emptyLedger "bob" "studio_lite").1.history.getLast?
            = some ⟨"bob", 2000, 2000, "Subscription renewal (Studio Lite)", "subscription"⟩) :=
  ⟨by decide,
   sync_sets_balance_records_absolute_delta emptyLedger "bob" "studio_lite"
     ⟨"studio_lite", "Studio Lite", 2000, false⟩ (by decide)⟩

/-- C4, counterexample.  After `ensureCreditsRow` (signup entry, delta
1000) followed by a `studio_lite` sync (entry delta 2000, balance set to
2000), the prefix sum of the account's deltas is 3000 while the balance
is 2000: the sync's absolute-delta entry breaks the reconstruction
invariant. -/
theorem sync_breaks_prefix_sum :
    sumDeltas (entriesFor (runOps emptyLedger [LOp.ensure "u", LOp.sync "u" "studio_lite"]) "u")
        = 3000
      ∧ balanceOf (runOps emptyLedger [LOp.ensure "u", LOp.sync "u" "studio_lite"]) "u" = 2000
      ∧ sumDeltas (entriesFor (runOps emptyLedger [LOp.ensure "u", LOp.sync "u" "studio_lite"]) "u")
          ≠ balanceOf (runOps emptyLedger [LOp.ensure "u", LOp.sync "u" "studio_lite"]) "u" := by
  decide

/-- C4, amended: starting from an invariant-satisfying state, after any
sequential sequence of the ledger operations the latest entry's
`balance_after` still equals the current balance for every account, and
when the sequence contains no `resetToMonthlyAllowance`
(`POST /subscriptions/sync`) the account's entries in creation order
also prefix-sum (over `delta`, from zero) to the current balance. -/
theorem ledger_prefix_sum_invariant (s : LedgerState) (ops : List LOp) (u : String)
    (hinv : Inv s) :
    lastBalanceAgrees (runOps s ops) u
      ∧ ((∀ op ∈ ops, op.isSync = false) →
          sumDeltas (entriesFor (runOps s ops) u) = balanceOf (runOps s ops) u) :=
  ⟨winv_runOps s ops (winv_of_inv s hinv) u,
   fun hns => (inv_runOps s ops hinv hns u).1⟩

/-- C4, witness for the amended theorem. -/
theorem ledger_prefix_sum_invariant_witness :
    (Inv emptyLedger ∧ (∀ op ∈ c4ops, op.isSync = false))
      ∧ (lastBalanceAgrees (runOps emptyLedger c4ops) "u"
        ∧ ((∀ op ∈ c4ops, op.isSync = false) →
            sumDeltas (entriesFor (runOps emptyLedger c4ops) "u")
              = balanceOf (runOps emptyLedger c4ops) "u")) :=
  ⟨⟨inv_emptyLedger, by decide⟩,
   ledger_prefix_sum_invariant emptyLedger c4ops "u" inv_emptyLedger⟩

/-- C5, counterexample.  Two concurrent `ensureCreditsRow` calls for a
fresh account, scheduled read-read-insert-insert: the loser's read found
no row and its insert failed on the duplicate key, and the call ends in
the thrown-error state rather than reading and returning the
now-existing row. -/
theorem ensure_race_loser_errors :
    (runEnsureRace "u1" raceInit [false, true, false, true]).w2 = EnsurePhase.errored
      ∧ ((runEnsureRace "u1" raceInit [false, true, false, true]).state.credits "u1").isSome
      ∧ signupCount (runEnsureRace "u1" raceInit [false, true, false, true]).state "u1" = 1 := by
  decide

/-- C5, amended: the losing `ensureCreditsRow` call surfaces the
`AlreadyExists` error instead of falling back to a read, but under every
interleaving of two concurrent calls for a fresh account at most one
signup-bonus ledger entry is ever recorded. -/
theorem ensure_race_single_bonus (u : String) (sched : List Bool) :
    signupCount (runEnsureRace u raceInit sched).state u ≤ 1 := by
  have h := signupCount_race u raceInit sched
    (by simp [signupCount, raceInit, emptyLedger])
  rw [h]
  split <;> omega

/-- C6, confirmed: for a sale of 100.00 with platform fee rate 0.10 and
collaborators split 60/40, `POST /sales/record-split` computes creator
revenue 90.00 and payouts 54.00 and 36.00, which sum exactly to the
creator revenue. -/
theorem record_split_60_40_exact :
    creatorRevenueOf 100 (1 / 10) = 90
      ∧ recordSplitPayouts 100 (1 / 10) [⟨some "a", 60⟩, ⟨some "b", 40⟩] = [54, 36]
      ∧ (54 : ℚ) + 36 = creatorRevenueOf 100 (1 / 10) := by
  refine ⟨?_, ?_, ?_⟩ <;>
    norm_num [creatorRevenueOf, recordSplitPayouts, payoutOf, round2]

/-- C7, confirmed: `POST /api/boosts/activate` rejects any tier outside
one to three with a validation error; for a valid tier the durations are
3, 7, 30 days, and the new expiry is `max(now, existing expiry) +
duration` when a boost exists for the item, else `now + duration`. -/
theorem activate_tier_validation_and_expiry (s : BoostState)
    (beatId producerId : String) (tier now : Int)
    (hb : beatId ≠ "") (hp : producerId ≠ "") :
    (¬(tier = 1 ∨ tier = 2 ∨ tier = 3) →
        (boostsActivate s beatId producerId tier now).2 = Except.error BoostErr.validation)
      ∧ boostLengthDays 1 = 3 ∧ boostLengthDays 2 = 7 ∧ boostLengthDays 3 = 30
      ∧ ((tier = 1 ∨ tier = 2 ∨ tier = 3) →
          ((boostsActivate s beatId producerId tier now).2.toOption.map Boost.expiresAt)
            = some (match latestBoostFor s beatId with
                | some b => max now b.expiresAt + boostLengthDays tier * msPerDay
                | none => now + boostLengthDays tier * msPerDay)) := by
  refine ⟨?_, by decide, by decide, by decide, ?_⟩
  · intro htier
    rw [boostsActivate, if_pos (Or.inr (Or.inr htier))]
  · intro htier
    have hcond : ¬(beatId = "" ∨ producerId = "" ∨ ¬(tier = 1 ∨ tier = 2 ∨ tier = 3)) := by
      intro hcon
      rcases hcon with h | h | h
      · exact hb h
      · exact hp h
      · exact h htier
    rw [boostsActivate, if_neg hcond]
    cases hfind : s.boosts.find? (fun b => b.beatId == beatId) with
    | some old => simp only [hfind]; exact rfl
    | none => simp only [hfind]; exact rfl

/-- C7, witness at a concrete state holding a tier-3 boost, extended
with tier 2. -/
theorem activate_tier_validation_and_expiry_witness :
    (("b1" : String) ≠ "" ∧ ("p2" : String) ≠ "")
      ∧ ((¬((2 : Int) = 1 ∨ (2 : Int) = 2 ∨ (2 : Int) = 3) →
          (boostsActivate boost3State "b1" "p2" 2 7).2 = Except.error BoostErr.validation)
        ∧ boostLengthDays 1 = 3 ∧ boostLengthDays 2 = 7 ∧ boostLengthDays 3 = 30
        ∧ (((2 : Int) = 1 ∨ (2 : Int) = 2 ∨ (2 : Int) = 3) →
            ((boostsActivate boost3State "b1" "p2" 2 7).2.toOption.map Boost.expiresAt)
              = some (match latestBoostFor boost3State "b1" with
                  | some b => max 7 b.expiresAt + boostLengthDays 2 * msPerDay
                  | none => 7 + boostLengthDays 2 * msPerDay))) :=
  ⟨⟨by decide, by decide⟩,
   activate_tier_validation_and_expiry boost3State "b1" "p2" 2 7 (by decide) (by decide)⟩

/-- C8, counterexample.  With 201 boosts all active at time 0,
`GET /api/boosted` returns only 200 rows because of its `.limit(200)`,
so it does not return exactly the boosts with `expires_at > now`. -/
theorem boosted_limit_truncates :
    (c8many.filter (fun b => (0 : Int) < b.expiresAt)).length = 201
      ∧ (listBoosted c8many 0).length = 200
      ∧ ¬(listBoosted c8many 0).Perm (c8many.filter (fun b => (0 : Int) < b.expiresAt)) := by
  have hfil : c8many.filter (fun b => (0 : Int) < b.expiresAt) = c8many := by
    rw [List.filter_eq_self]
    intro b hb
    simp only [c8many, List.mem_map, List.mem_range] at hb
    obtain ⟨i, _, rfl⟩ := hb
    rfl
  have hlen : c8many.length = 201 := by simp [c8many]
  have hsortlen :
      ((c8many.filter (fun b => (0 : Int) < b.expiresAt)).insertionSort boostOrder).length
        = 201 := by
    rw [(List.perm_insertionSort boostOrder _).length_eq, hfil, hlen]
  refine ⟨by rw [hfil, hlen], ?_, ?_⟩
  · simp only [listBoosted]
    rw [List.length_take, hsortlen]
    decide
  · intro hperm
    have hpl := hperm.length_eq
    rw [hfil, hlen] at hpl
    simp only [listBoosted] at hpl
    rw [List.length_take, hsortlen] at hpl
    exact absurd hpl (by decide)

/-- C8, amended: `GET /api/boosted` returns only boosts with
`expires_at > now`, sorted by `priority_score` descending then
`starts_at` descending, truncated to the first 200; whenever at most 200
boosts are active it returns exactly the active set in that order. -/
theorem boosted_active_sorted (boosts : List Boost) (now : Int) :
    (∀ b ∈ listBoosted boosts now, now < b.expiresAt)
      ∧ List.Sorted boostOrder (listBoosted boosts now)
      ∧ ((boosts.filter (fun b => now < b.expiresAt)).length ≤ 200 →
          (listBoosted boosts now).Perm (boosts.filter (fun b => now < b.expiresAt))) := by
  refine ⟨?_, ?_, ?_⟩
  · intro b hb
    simp only [listBoosted] at hb
    have h1 : b ∈ (boosts.filter (fun b => now < b.expiresAt)).insertionSort boostOrder :=
      List.take_subset _ _ hb
    have h2 : b ∈ boosts.filter (fun b => now < b.expiresAt) :=
      (List.perm_insertionSort boostOrder _).mem_iff.mp h1
    exact of_decide_eq_true (List.mem_filter.mp h2).2
  · simp only [listBoosted]
    exact List.Pairwise.sublist (List.take_sublist _ _)
      (List.sorted_insertionSort boostOrder _)
  · intro hlen
    have hlen2 :
        ((boosts.filter (fun b => now < b.expiresAt)).insertionSort boostOrder).length
          ≤ 200 := by
      rw [(List.perm_insertionSort boostOrder _).length_eq]
      exact hlen
    simp only [listBoosted]
    rw [List.take_of_length_le hlen2]
    exact List.perm_insertionSort boostOrder _

/-- C8, witness for the amended theorem at a two-boost snapshot. -/
theorem boosted_active_sorted_witness :
    ((c8small.filter (fun b => (4 : Int) < b.expiresAt)).length ≤ 200)
      ∧ (listBoosted c8small 4).Perm (c8small.filter (fun b => (4 : Int) < b.expiresAt)) :=
  ⟨by decide, (boosted_active_sorted c8small 4).2.2 (by decide)⟩

/-- C9, counterexample.  `POST /boosts/create` only checks that `days`
is truthy, so creating a boost with `days = -1` yields a record with
`expires_at` one day before `starts_at`, violating the claimed
`startsAt <= expiresAt` invariant. -/
theorem create_negative_days_invariant_violation :
    ((runBoostOps emptyBoosts [(BOp.create "b1" "p1" (-1), 0)]).boosts.map
        (fun b => decide (b.startsAt ≤ b.expiresAt))) = [false]
      ∧ ¬(∀ b ∈ (runBoostOps emptyBoosts [(BOp.create "b1" "p1" (-1), 0)]).boosts,
            b.startsAt ≤ b.expiresAt) := by
  decide

/-- C9, amended: starting from an empty table, after any sequence of
boost operations at nondecreasing times in which every create call has
positive `days`, every record satisfies `startsAt <= expiresAt`, and at
most one boost record per item is currently active at any time (the
table keys boost rows by item, modelled from the spec since the schema
is not in the repository). -/
theorem boost_ops_invariant (ops : List (BOp × Int)) (t0 : Int)
    (hord : timesOrdered t0 ops = true)
    (hd : ∀ p ∈ ops, daysPositive p.1 = true) :
    (∀ b ∈ (runBoostOps emptyBoosts ops).boosts, b.startsAt ≤ b.expiresAt)
      ∧ ∀ beatId now,
          ((runBoostOps emptyBoosts ops).boosts.filter
            (fun b => b.beatId == beatId && decide (now < b.expiresAt))).length ≤ 1 := by
  have h0 : BInv emptyBoosts t0 := ⟨by simp [emptyBoosts], by simp [emptyBoosts]⟩
  obtain ⟨t2, hinv⟩ := binv_runBoostOps emptyBoosts ops t0 h0 hord hd
  exact ⟨fun b hb => (hinv.2 b hb).2,
    fun beatId now => filter_beatId_le_one _ beatId now hinv.1⟩

/-- C9, witness for the amended theorem at a concrete operation
sequence. -/
theorem boost_ops_invariant_witness :
    (timesOrdered 0 c9ops = true ∧ ∀ p ∈ c9ops, daysPositive p.1 = true)
      ∧ ((∀ b ∈ (runBoostOps emptyBoosts c9ops).boosts, b.startsAt ≤ b.expiresAt)
        ∧ ∀ beatId now,
            ((runBoostOps emptyBoosts c9ops).boosts.filter
              (fun b => b.beatId == beatId && decide (now < b.expiresAt))).length ≤ 1) :=
  ⟨⟨by decide, by decide⟩, boost_ops_invariant c9ops 0 (by decide) (by decide)⟩

/-- C10, confirmed: extending an item's existing boost overwrites the
stored producer, tier, `starts_at` and `priority_score` with the new
call's values (`tier`, `tier * 100`, `now`) while extending
`expires_at` from `max(now, existing expiry)`. -/
theorem activate_overwrites_fields (s : BoostState) (beatId producerId : String)
    (tier now : Int) (b0 : Boost)
    (hb : beatId ≠ "") (hp : producerId ≠ "")
    (htier : tier = 1 ∨ tier = 2 ∨ tier = 3)
    (hfind : s.boosts.find? (fun b => b.beatId == beatId) = some b0)
    (hlat : latestBoostFor s beatId = some b0) :
    (boostsActivate s beatId producerId tier now).2
        = Except.ok (activatePayload b0 producerId tier now)
      ∧ activatePayload b0 producerId tier now
          ∈ (boostsActivate s beatId producerId tier now).1.boosts
      ∧ (activatePayload b0 producerId tier now).tier = tier
      ∧ (activatePayload b0 producerId tier now).priorityScore = tier * 100
      ∧ (activatePayload b0 producerId tier now).startsAt = now
      ∧ (activatePayload b0 producerId tier now).expiresAt
          = max now b0.expiresAt + boostLengthDays tier * msPerDay := by
  have hcond : ¬(beatId = "" ∨ producerId = "" ∨ ¬(tier = 1 ∨ tier = 2 ∨ tier = 3)) := by
    intro hcon
    rcases hcon with h | h | h
    · exact hb h
    · exact hp h
    · exact h htier
  have hb0 : (b0.beatId == beatId) = true := by
    have h := List.find?_some hfind
    exact h
  have hmem : b0 ∈ s.boosts := List.mem_of_find?_eq_some hfind
  refine ⟨?_, ?_, rfl, rfl, rfl, rfl⟩
  · rw [boostsActivate, if_neg hcond]
    simp only [hfind, hlat]
    rfl
  · rw [boostsActivate, if_neg hcond]
    simp only [hfind, hlat]
    refine List.mem_map.mpr ⟨b0, hmem, ?_⟩
    rw [if_pos hb0]
    rfl

/-- C10, witness: extending the concrete tier-3 boost (priority 300)
with tier 1 lowers its priority score to 100 and resets `starts_at` to
`now`. -/
theorem activate_overwrites_fields_witness :
    (("b1" : String) ≠ "" ∧ ("p2" : String) ≠ ""
        ∧ ((1 : Int) = 1 ∨ (1 : Int) = 2 ∨ (1 : Int) = 3)
        ∧ boost3State.boosts.find? (fun b => b.beatId == "b1")
            = some ⟨0, "b1", "p1", 3, 0, 1000, 300⟩
        ∧ latestBoostFor boost3State "b1" = some ⟨0, "b1", "p1", 3, 0, 1000, 300⟩)
      ∧ ((boostsActivate boost3State "b1" "p2" 1 7).2
            = Except.ok (activatePayload ⟨0, "b1", "p1", 3, 0, 1000, 300⟩ "p2" 1 7)
        ∧ activatePayload ⟨0, "b1", "p1", 3, 0, 1000, 300⟩ "p2" 1 7
            ∈ (boostsActivate boost3State "b1" "p2" 1 7).1.boosts
        ∧ (activatePayload ⟨0, "b1", "p1", 3, 0, 1000, 300⟩ "p2" 1 7).tier = 1
        ∧ (activatePayload ⟨0, "b1", "p1", 3, 0, 1000, 300⟩ "p2" 1 7).priorityScore = 1 * 100
        ∧ (activatePayload ⟨0, "b1", "p1", 3, 0, 1000, 300⟩ "p2" 1 7).startsAt = 7
        ∧ (activatePayload ⟨0, "b1", "p1", 3, 0, 1000, 300⟩ "p2" 1 7).expiresAt
            = max 7 (1000 : Int) + boostLengthDays 1 * msPerDay) :=
  ⟨⟨by decide, by decide, by decide, by decide, by decide⟩,
   activate_overwrites_fields boost3State "b1" "p2" 1 7 ⟨0, "b1", "p1", 3, 0, 1000, 300⟩
     (by decide) (by decide) (by decide) (by decide) (by decide)⟩

end Riddimbase
